import Mathlib

/-!
Shallow embedding of the go-tablewriter rendering library.

The definitions below are translated from the repository's Go source:
`tablewriter.go` (types, errors, `Table`, `AddRow`), `options.go`
(configuration builder) and the render engine file (`render`, `colWidths`,
`applyCellOpts`, `alignCell`, `getAlign`, `renderPlain`,
`buildHorizontalBorder`, `renderMarkdown`, `renderCSV`, `csvRow`,
`renderJSON`, `renderSimple`).

Modelling conventions:
* Go strings are Lean `String`s; `utf8.RuneCountInString` is the number of
  code points, i.e. `(·.toList.length)`.
* Go `int` is modelled as `Int` where the sign matters (`MaxColumnWidth`);
  column widths, which are always non-negative, are `Nat`.
* Functions whose only Go `error` result is the constant `nil` are modelled
  as pure `String` functions; the two fallible operations (`renderJSON`,
  `AddRow`) return the new value paired with an optional error, mirroring
  Go's `(value, error)` convention.
* `encoding/json.MarshalIndent` on a `[]map[string]string` with prefix `""`
  and indent two spaces is modelled by `marshalIndent` below: Go serializes
  a `map[string]string` with its keys in byte-wise (= code-point-wise, by
  the UTF-8 order-preservation property) sorted order, each string encoded
  with the default HTML-escaping encoder.
-/

namespace Tablewriter

/-- Output format enum (`Format` in `tablewriter.go`). -/
inductive Format where
  | FormatPlain
  | FormatMarkdown
  | FormatCSV
  | FormatJSON
  | FormatSimple
deriving DecidableEq, Repr

/-- Column text alignment enum (`Alignment` in `tablewriter.go`). -/
inductive Alignment where
  | AlignLeft
  | AlignCenter
  | AlignRight
deriving DecidableEq, Repr

/-- The package's two sentinel errors (`ErrMissingHeaders`, `ErrColumnMismatch`). -/
inductive TWError where
  | MissingHeaders
  | ColumnMismatch
deriving DecidableEq, Repr

/-- Rendering configuration (`Options` in `tablewriter.go`). -/
structure Options where
  Headers : List String := []
  Format : Format := Format.FormatPlain
  Alignments : List Alignment := []
  MaxColumnWidth : Int := 0
  NullPlaceholder : String := ""
  StrictColumnCount : Bool := false
deriving DecidableEq, Repr

/-- `utf8.RuneCountInString`: the number of Unicode code points of a string. -/
def runeCountInString (s : String) : Nat :=
  s.toList.length

/-- `strings.Repeat s n`: `n` concatenated copies of `s`. -/
def srep (s : String) : Nat → String
  | 0 => ""
  | n + 1 => s ++ srep s n

/-- First step of `applyCellOpts`: the null-placeholder substitution
(`if v == "" && opts.NullPlaceholder != "" { v = opts.NullPlaceholder }`). -/
def substNull (v : String) (opts : Options) : String :=
  if v = "" ∧ opts.NullPlaceholder ≠ "" then opts.NullPlaceholder else v

/-- Second step of `applyCellOpts`: width-based truncation. When
`MaxColumnWidth > 0` and the value is longer, keep `MaxColumnWidth - 3`
code points and append `"..."` if the limit exceeds 3, else keep exactly
`MaxColumnWidth` code points. -/
def truncCell (v : String) (opts : Options) : String :=
  if 0 < opts.MaxColumnWidth ∧ opts.MaxColumnWidth < (runeCountInString v : Int) then
    if 3 < opts.MaxColumnWidth then
      (v.toList.take (opts.MaxColumnWidth - 3).toNat).asString ++ "..."
    else
      (v.toList.take opts.MaxColumnWidth.toNat).asString
  else v

/-- `applyCellOpts`: null-placeholder substitution followed by truncation. -/
def applyCellOpts (v : String) (opts : Options) : String :=
  truncCell (substNull v opts) opts

/-- `alignCell`: pad `s` with ASCII spaces up to `width` code points.
The Go source computes `pad := width - slen` (ints) and returns `s`
unchanged when `pad <= 0`; widths are non-negative, so the guard is
`width ≤ slen`. -/
def alignCell (s : String) (width : Nat) (align : Alignment) : String :=
  let slen := runeCountInString s
  if width ≤ slen then s
  else
    let pad := width - slen
    match align with
    | Alignment.AlignRight => srep " " pad ++ s
    | Alignment.AlignCenter => srep " " (pad / 2) ++ s ++ srep " " (pad - pad / 2)
    | Alignment.AlignLeft => s ++ srep " " pad

/-- `getAlign`: per-column alignment with `AlignLeft` default past the end. -/
def getAlign (opts : Options) (col : Nat) : Alignment :=
  opts.Alignments.getD col Alignment.AlignLeft

/-- One step of the width loops: `if w > widths[i] { widths[i] = w }`. -/
def bumpAt (widths : List Nat) (i w : Nat) : List Nat :=
  if widths.getD i 0 < w then widths.set i w else widths

/-- The final clamping step of `colWidths`:
`if widths[i] > opts.MaxColumnWidth { widths[i] = opts.MaxColumnWidth }`
(performed only when `opts.MaxColumnWidth > 0`). -/
def capWidth (opts : Options) (w : Nat) : Nat :=
  if opts.MaxColumnWidth < (w : Int) then opts.MaxColumnWidth.toNat else w

/-- `colWidths`: max display width of each column across headers and rows.
Headers are measured raw (`utf8.RuneCountInString(h)`), data cells are
measured after `applyCellOpts`, exactly as in the source. -/
def colWidths (opts : Options) (rows : List (List String)) : List Nat :=
  let numCols := rows.foldl (fun acc r => max acc r.length) opts.Headers.length
  let ws0 := List.replicate numCols 0
  let ws1 := opts.Headers.enum.foldl
    (fun ws p => bumpAt ws p.1 (runeCountInString p.2)) ws0
  let ws2 := rows.foldl
    (fun ws r =>
      r.enum.foldl (fun ws p => bumpAt ws p.1 (runeCountInString (applyCellOpts p.2 opts))) ws)
    ws1
  if 0 < opts.MaxColumnWidth then ws2.map (capWidth opts) else ws2

/-- The per-cell computation shared verbatim by the data-row loops of
`renderPlain`, `renderMarkdown` and `renderSimple`:
`v := ""; if i < len(r) { v = r[i] }; v = applyCellOpts(v, opts);
alignCell(v, widths[i], getAlign(opts, i))`, for `i` ranging over the
columns. -/
def alignedRowCells (opts : Options) (widths : List Nat) (r : List String) : List String :=
  (List.range widths.length).map fun i =>
    alignCell (applyCellOpts (r.getD i "") opts) (widths.getD i 0) (getAlign opts i)

/-- `buildHorizontalBorder`: corner/junction glyphs around `fill` repeated
`width + 2` times per column. -/
def buildHorizontalBorder (widths : List Nat) (left mid right fill : String) : String :=
  left ++ String.intercalate mid (widths.map fun w => srep fill (w + 2)) ++ right

/-- One data-row line of `renderPlain` (the `"\n│"` prefix plus
`" " + cell + " │"` per column). -/
def plainRowLine (opts : Options) (widths : List Nat) (r : List String) : String :=
  "\n│" ++ String.join ((alignedRowCells opts widths r).map fun c => " " ++ c ++ " │")

/-- `renderPlain`: Unicode box table. The Go function always returns a `nil`
error, so it is modelled as a pure `String`. -/
def renderPlain (opts : Options) (rows : List (List String)) : String :=
  let widths := colWidths opts rows
  if widths.length = 0 then ""
  else
    let base :=
      buildHorizontalBorder widths "┌" "┬" "┐" "─"
      ++ (if 0 < opts.Headers.length then
            "\n│"
            ++ String.join (opts.Headers.enum.map fun p =>
                 " " ++ alignCell (applyCellOpts p.2 opts) (widths.getD p.1 0) (getAlign opts p.1)
                 ++ " │")
            ++ String.join ((List.range' opts.Headers.length (widths.length - opts.Headers.length)).map
                 fun i => " " ++ srep " " (widths.getD i 0) ++ " │")
            ++ "\n" ++ buildHorizontalBorder widths "├" "┼" "┤" "─"
          else "")
    rows.foldl (fun acc r => acc ++ plainRowLine opts widths r) base
    ++ "\n" ++ buildHorizontalBorder widths "└" "┴" "┘" "─" ++ "\n"

/-- One separator-row cell of `renderMarkdown` for column index/width `p`. -/
def mdSepCell (opts : Options) (p : Nat × Nat) : String :=
  match getAlign opts p.1 with
  | Alignment.AlignRight => " " ++ srep "-" p.2 ++ ":|"
  | Alignment.AlignCenter => ":" ++ srep "-" p.2 ++ ":|"
  | Alignment.AlignLeft => " " ++ srep "-" p.2 ++ " |"

/-- One table line of `renderMarkdown` (header line and data lines share
this shape in the source). -/
def mdRowLine (opts : Options) (widths : List Nat) (r : List String) : String :=
  "|" ++ String.join ((alignedRowCells opts widths r).map fun c => " " ++ c ++ " |") ++ "\n"

/-- `renderMarkdown`: GitHub-flavored table; always a `nil` error in Go. -/
def renderMarkdown (opts : Options) (rows : List (List String)) : String :=
  let widths := colWidths opts rows
  if widths.length = 0 then ""
  else
    let base := mdRowLine opts widths opts.Headers
      ++ "|" ++ String.join (widths.enum.map (mdSepCell opts)) ++ "\n"
    rows.foldl (fun acc r => acc ++ mdRowLine opts widths r) base

/-- The quoting step inside `csvRow`: a cell containing `"` `,` or a newline
is wrapped in double quotes with internal double quotes doubled
(`strings.ContainsAny(c, "\",\n")` / `strings.ReplaceAll(c, quote, 2×quote)`). -/
def csvEscape (c : String) : String :=
  if c.toList.any (fun ch => ch = '"' ∨ ch = ',' ∨ ch = '\n') then
    "\"" ++ (c.toList.flatMap fun ch => if ch = '"' then ['"', '"'] else [ch]).asString ++ "\""
  else c

/-- `csvRow`: escape every column and join with commas. -/
def csvRow (cols : List String) : String :=
  String.intercalate "," (cols.map csvEscape)

/-- `renderCSV`: optional raw header line, then one line per row with
`applyCellOpts` applied to each cell; always a `nil` error in Go. -/
def renderCSV (opts : Options) (rows : List (List String)) : String :=
  let base := if 0 < opts.Headers.length then csvRow opts.Headers ++ "\n" else ""
  rows.foldl (fun acc r => acc ++ (csvRow (r.map fun v => applyCellOpts v opts) ++ "\n")) base

/-- Go `map[string]string` assignment `obj[k] = v` on an association list
with distinct keys: overwrite if present, else append. -/
def mapInsert : List (String × String) → String → String → List (String × String)
  | [], k, v => [(k, v)]
  | (k', v') :: rest, k, v =>
    if k' = k then (k, v) :: rest else (k', v') :: mapInsert rest k v

/-- The value stored for header index `i` in `renderJSON`:
`v := ""; if i < len(r) { v = applyCellOpts(r[i], opts) }`. -/
def cellVal (opts : Options) (r : List String) (i : Nat) : String :=
  if i < r.length then applyCellOpts (r.getD i "") opts else ""

/-- The header loop of `renderJSON` building one object:
`for i, h := range opts.Headers { obj[h] = v(i) }`. -/
def jsonObjAux (opts : Options) (r : List String) :
    Nat → List String → List (String × String) → List (String × String)
  | _, [], obj => obj
  | i, h :: hs, obj => jsonObjAux opts r (i + 1) hs (mapInsert obj h (cellVal opts r i))

/-- The object `renderJSON` builds for one row. -/
def jsonObj (opts : Options) (r : List String) : List (String × String) :=
  jsonObjAux opts r 0 opts.Headers []

/-- The `result` slice of `renderJSON`: one object per row, in order. -/
def jsonObjs (opts : Options) (rows : List (List String)) : List (List (String × String)) :=
  rows.map (jsonObj opts)

/-- Lower-case hexadecimal digit, as used by `encoding/json`'s `\u00xx` escapes. -/
def hexDigit (n : Nat) : Char :=
  if n < 10 then Char.ofNat (48 + n) else Char.ofNat (87 + n)

/-- Models `encoding/json`'s default (HTML-escaping) encoding of one
character inside a JSON string. -/
def goEscapeChar (c : Char) : List Char :=
  if c = '"' then ['\\', '"']
  else if c = '\\' then ['\\', '\\']
  else if c = '\n' then ['\\', 'n']
  else if c = '\r' then ['\\', 'r']
  else if c = '\t' then ['\\', 't']
  else if c = '<' then ['\\', 'u', '0', '0', '3', 'c']
  else if c = '>' then ['\\', 'u', '0', '0', '3', 'e']
  else if c = '&' then ['\\', 'u', '0', '0', '2', '6']
  else if c.toNat < 32 then ['\\', 'u', '0', '0', hexDigit (c.toNat / 16), hexDigit (c.toNat % 16)]
  else if c.toNat = 8232 then ['\\', 'u', '2', '0', '2', '8']
  else if c.toNat = 8233 then ['\\', 'u', '2', '0', '2', '9']
  else [c]

/-- Models `encoding/json`'s serialization of a Go string. -/
def goQuote (s : String) : String :=
  "\"" ++ (s.toList.flatMap goEscapeChar).asString ++ "\""

/-- Go's string ordering (`a <= b` as used by `sort.Strings` inside
`encoding/json` for map keys): byte-wise lexicographic comparison, which by
the order-preservation property of UTF-8 equals code-point-wise
lexicographic comparison. -/
def strLeb : List Char → List Char → Bool
  | [], _ => true
  | _ :: _, [] => false
  | x :: xs, y :: ys => if x = y then strLeb xs ys else decide (x < y)

/-- `strLeb` lifted to strings, as a proposition. -/
def strLe (a b : String) : Prop :=
  strLeb a.toList b.toList = true

/-- Ordering of map entries by key, the order `encoding/json` emits them in. -/
def keyLE (a b : String × String) : Prop :=
  strLeb a.1.toList b.1.toList = true

instance keyLE.decRel : DecidableRel keyLE :=
  fun a b => inferInstanceAs (Decidable (strLeb a.1.toList b.1.toList = true))

/-- `encoding/json` serializes a `map[string]string` with its keys in sorted
order; the association list built by `mapInsert` has distinct keys, so
sorting it by key yields exactly the serialization order. -/
def sortEntries (m : List (String × String)) : List (String × String) :=
  List.insertionSort keyLE m

/-- The key sequence in which `encoding/json` serializes one object. -/
def marshalKeys (m : List (String × String)) : List String :=
  (sortEntries m).map Prod.fst

/-- Models `json.MarshalIndent`'s rendering of one `map[string]string`
element of the slice (element indent two spaces, entries four). -/
def marshalObj (m : List (String × String)) : String :=
  if m.length = 0 then "  \x7b\x7d"
  else
    "  \x7b\n"
    ++ String.intercalate ",\n"
         ((sortEntries m).map fun kv => "    " ++ goQuote kv.1 ++ ": " ++ goQuote kv.2)
    ++ "\n  \x7d"

/-- Models `json.MarshalIndent(result, "", "  ")` for a
`[]map[string]string` value. -/
def marshalIndent (objs : List (List (String × String))) : String :=
  if objs.length = 0 then "[]"
  else "[\n" ++ String.intercalate ",\n" (objs.map marshalObj) ++ "\n]"

/-- `renderJSON`: fails with `ErrMissingHeaders` when headers are empty,
otherwise marshals one object per row and appends one newline. Marshalling
a `[]map[string]string` cannot fail, so the wrapped-marshal-error branch of
the source is unreachable and the model's only error is `MissingHeaders`. -/
def renderJSON (opts : Options) (rows : List (List String)) : String × Option TWError :=
  if opts.Headers.length = 0 then ("", some TWError.MissingHeaders)
  else (marshalIndent (jsonObjs opts rows) ++ "\n", none)

/-- One line of `renderSimple`: width-aligned cells, two-space separated. -/
def simpleRowLine (opts : Options) (widths : List Nat) (r : List String) : String :=
  String.intercalate "  " (alignedRowCells opts widths r) ++ "\n"

/-- `renderSimple`: borderless table; always a `nil` error in Go. -/
def renderSimple (opts : Options) (rows : List (List String)) : String :=
  let widths := colWidths opts rows
  if widths.length = 0 then ""
  else
    let base :=
      if 0 < opts.Headers.length then
        simpleRowLine opts widths opts.Headers
        ++ String.intercalate "  " (widths.map fun w => srep "-" w) ++ "\n"
      else ""
    rows.foldl (fun acc r => acc ++ simpleRowLine opts widths r) base

/-- The top-level `render` dispatcher. The Go `default` branch (reached for
`FormatPlain`, the only remaining enum value) calls `renderPlain`. -/
def render (opts : Options) (rows : List (List String)) : String × Option TWError :=
  match opts.Format with
  | Format.FormatMarkdown => (renderMarkdown opts rows, none)
  | Format.FormatCSV => (renderCSV opts rows, none)
  | Format.FormatJSON => renderJSON opts rows
  | Format.FormatSimple => (renderSimple opts rows, none)
  | Format.FormatPlain => (renderPlain opts rows, none)

/-- `Table`: rendering options plus the accumulated rows. -/
structure Table where
  opts : Options
  rows : List (List String)
deriving DecidableEq, Repr

/-- `New`: a fresh table with no rows. -/
def New (opts : Options) : Table :=
  ⟨opts, []⟩

/-- `AddRow`: reject the row with `ErrColumnMismatch` when strict mode is on,
headers are non-empty and the lengths differ (the Go method returns before
appending, leaving the receiver unchanged); otherwise append a copy of the
row. Modelled as Go's mutation by returning the new table state alongside
the optional error. -/
def AddRow (t : Table) (cols : List String) : Table × Option TWError :=
  if t.opts.StrictColumnCount = true ∧ 0 < t.opts.Headers.length
      ∧ cols.length ≠ t.opts.Headers.length then
    (t, some TWError.ColumnMismatch)
  else
    ({ t with rows := t.rows ++ [cols] }, none)

/-- `RowCount`: the number of accumulated data rows. -/
def RowCount (t : Table) : Nat :=
  t.rows.length

/-- The string's last character is a newline. -/
def endsNL (s : String) : Prop :=
  s.toList.getLast? = some '\n'

/-- Value lookup in the association-list model of a Go `map[string]string`. -/
def lookupKey (k : String) : List (String × String) → Option String
  | [] => none
  | (k', v) :: rest => if k' = k then some v else lookupKey k rest

/-- JSON configuration with headers that are not alphabetically sorted. -/
def optsKeyOrder : Options :=
  { Headers := ["Name", "Age"], Format := Format.FormatJSON }

/-- JSON configuration with a null placeholder, for rows shorter than the
header list. -/
def optsShortRow : Options :=
  { Headers := ["A", "B"], Format := Format.FormatJSON, NullPlaceholder := "N/A" }

/-- CSV configuration whose truncation limit is shorter than its header. -/
def optsRawHeader : Options :=
  { Headers := ["Hello"], Format := Format.FormatCSV, MaxColumnWidth := 4 }

/-- Plain configuration whose null placeholder is wider than its only column. -/
def optsWidePlaceholder : Options :=
  { Headers := ["A"], NullPlaceholder := "N/A" }

/-- The CSV scenario configuration from the specification. -/
def optsCsvScenario : Options :=
  { Headers := ["ID", "Status"], Format := Format.FormatCSV }

/-- A strict-mode table with two headers, used to exercise `AddRow`. -/
def strictTable : Table :=
  New { Headers := ["A", "B"], StrictColumnCount := true }

/-! ## Helper lemmas -/

theorem toList_append (s t : String) : (s ++ t).toList = s.toList ++ t.toList :=
  String.data_append s t

theorem runeCount_append (s t : String) :
    runeCountInString (s ++ t) = runeCountInString s + runeCountInString t := by
  simp [runeCountInString, toList_append]

theorem runeCount_asString (l : List Char) : runeCountInString l.asString = l.length := by
  simp [runeCountInString, List.toList_asString]

theorem runeCount_srep (s : String) (n : Nat) :
    runeCountInString (srep s n) = n * runeCountInString s := by
  induction n with
  | zero => simp [srep, runeCountInString]
  | succ n ih => rw [srep, runeCount_append, ih]; ring

theorem runeCount_srep_space (n : Nat) : runeCountInString (srep " " n) = n := by
  rw [runeCount_srep]
  norm_num [runeCountInString]

theorem endsNL_append (s t : String) (h : endsNL t) : endsNL (s ++ t) := by
  unfold endsNL at h ⊢
  have hne : t.toList ≠ [] := by
    intro he
    rw [he] at h
    simp at h
  rw [toList_append, List.getLast?_append_of_ne_nil s.toList hne]
  exact h

theorem endsNL_newline (s : String) : endsNL (s ++ "\n") :=
  endsNL_append s "\n" (by unfold endsNL; decide)

theorem foldl_append_shift (l : List String) (s : String) :
    l.foldl (fun acc a => acc ++ a) s = s ++ l.foldl (fun acc a => acc ++ a) "" := by
  induction l generalizing s with
  | nil => simp
  | cons x xs ih =>
    show xs.foldl _ (s ++ x) = s ++ xs.foldl _ ("" ++ x)
    rw [ih (s ++ x), ih ("" ++ x), String.empty_append, String.append_assoc]

theorem strJoin_cons (a : String) (l : List String) :
    String.join (a :: l) = a ++ String.join l := by
  show l.foldl (fun acc s2 => acc ++ s2) ("" ++ a) = a ++ l.foldl (fun acc s2 => acc ++ s2) ""
  rw [String.empty_append, foldl_append_shift]

theorem foldl_append_eq_join {α : Type} (g : α → String) (l : List α) (s : String) :
    l.foldl (fun acc a => acc ++ g a) s = s ++ String.join (l.map g) := by
  induction l generalizing s with
  | nil => simp [String.join]
  | cons x xs ih =>
    show xs.foldl _ (s ++ g x) = _
    rw [ih (s ++ g x), List.map_cons, strJoin_cons, String.append_assoc]

theorem foldl_append_endsNL {α : Type} (g : α → String) (hg : ∀ a, endsNL (g a))
    (l : List α) (s : String) (hs : s = "" ∨ endsNL s) :
    l.foldl (fun acc a => acc ++ g a) s = "" ∨ endsNL (l.foldl (fun acc a => acc ++ g a) s) := by
  induction l generalizing s with
  | nil => exact hs
  | cons x xs ih =>
    show xs.foldl _ (s ++ g x) = "" ∨ endsNL (xs.foldl _ (s ++ g x))
    exact ih (s ++ g x) (Or.inr (endsNL_append s (g x) (hg x)))

theorem strLeb_total (a b : List Char) : strLeb a b = true ∨ strLeb b a = true := by
  induction a generalizing b with
  | nil => exact Or.inl rfl
  | cons x xs ih =>
    cases b with
    | nil => exact Or.inr rfl
    | cons y ys =>
      by_cases h : x = y
      · subst h
        rcases ih ys with h1 | h1
        · exact Or.inl (by simpa [strLeb] using h1)
        · exact Or.inr (by simpa [strLeb] using h1)
      · rcases lt_or_gt_of_ne h with hlt | hgt
        · exact Or.inl (by simp [strLeb, h, hlt])
        · exact Or.inr (by simp [strLeb, Ne.symm h, hgt])

theorem strLeb_trans {a b c : List Char} (h₁ : strLeb a b = true) (h₂ : strLeb b c = true) :
    strLeb a c = true := by
  induction a generalizing b c with
  | nil => rfl
  | cons x xs ih =>
    cases b with
    | nil => simp [strLeb] at h₁
    | cons y ys =>
      cases c with
      | nil => simp [strLeb] at h₂
      | cons z zs =>
        by_cases hxy : x = y <;> by_cases hyz : y = z
        · subst hxy; subst hyz
          simp only [strLeb, if_pos rfl] at h₁ h₂ ⊢
          exact ih h₁ h₂
        · subst hxy
          simp only [strLeb, if_pos rfl, if_neg hyz, decide_eq_true_eq] at h₂ ⊢
          simp [if_neg (ne_of_lt h₂), h₂]
        · subst hyz
          simp only [strLeb, if_neg hxy, decide_eq_true_eq] at h₁
          simp [strLeb, ne_of_lt h₁, h₁]
        · simp only [strLeb, if_neg hxy, decide_eq_true_eq] at h₁
          simp only [strLeb, if_neg hyz, decide_eq_true_eq] at h₂
          have hxz : x < z := lt_trans h₁ h₂
          simp [strLeb, ne_of_lt hxz, hxz]

theorem keyLE_isTotal : IsTotal (String × String) keyLE :=
  ⟨fun a b => strLeb_total a.1.toList b.1.toList⟩

theorem keyLE_isTrans : IsTrans (String × String) keyLE :=
  ⟨fun _ _ _ h₁ h₂ => strLeb_trans h₁ h₂⟩

theorem lookupKey_mapInsert_self (m : List (String × String)) (k v : String) :
    lookupKey k (mapInsert m k v) = some v := by
  induction m with
  | nil => simp [mapInsert, lookupKey]
  | cons p rest ih =>
    obtain ⟨k', v'⟩ := p
    by_cases h : k' = k
    · subst h; simp [mapInsert, lookupKey]
    · simp [mapInsert, h, lookupKey, ih]

theorem lookupKey_mapInsert_ne (m : List (String × String)) (k k2 v : String) (h : k2 ≠ k) :
    lookupKey k (mapInsert m k2 v) = lookupKey k m := by
  induction m with
  | nil => simp [mapInsert, lookupKey, h]
  | cons p rest ih =>
    obtain ⟨k', v'⟩ := p
    by_cases h2 : k' = k2
    · subst h2; simp [mapInsert, lookupKey, h]
    · by_cases h3 : k' = k
      · subst h3; simp [mapInsert, h2, lookupKey]
      · simp [mapInsert, h2, lookupKey, h3, ih]

theorem lookupKey_jsonObjAux_notMem (opts : Options) (r : List String) :
    ∀ (hs : List String) (k : String), k ∉ hs → ∀ (i : Nat) (obj : List (String × String)),
      lookupKey k (jsonObjAux opts r i hs obj) = lookupKey k obj := by
  intro hs
  induction hs with
  | nil => intro k _ i obj; rfl
  | cons h t ih =>
    intro k hk i obj
    have hne : h ≠ k := fun he => hk (he ▸ List.mem_cons_self h t)
    have hk' : k ∉ t := fun hm => hk (List.mem_cons_of_mem _ hm)
    show lookupKey k (jsonObjAux opts r (i + 1) t (mapInsert obj h (cellVal opts r i))) = _
    rw [ih k hk' (i + 1) _, lookupKey_mapInsert_ne _ _ _ _ hne]

theorem jsonObjAux_value (opts : Options) (r : List String) :
    ∀ (hs : List String), hs.Nodup → ∀ (j : Nat), j < hs.length →
      ∀ (i0 : Nat) (obj : List (String × String)),
        lookupKey (hs.getD j "") (jsonObjAux opts r i0 hs obj) = some (cellVal opts r (i0 + j)) := by
  intro hs
  induction hs with
  | nil => intro _ j hj; exact absurd hj (by simp)
  | cons h t ih =>
    intro hnd j hj i0 obj
    rcases List.nodup_cons.mp hnd with ⟨hht, hndt⟩
    cases j with
    | zero =>
      show lookupKey h (jsonObjAux opts r (i0 + 1) t (mapInsert obj h (cellVal opts r i0)))
          = some (cellVal opts r (i0 + 0))
      rw [lookupKey_jsonObjAux_notMem opts r t h hht (i0 + 1) _,
        lookupKey_mapInsert_self, Nat.add_zero]
    | succ j =>
      have hj' : j < t.length := by simpa using hj
      show lookupKey (t.getD j "") (jsonObjAux opts r (i0 + 1) t (mapInsert obj h (cellVal opts r i0)))
          = some (cellVal opts r (i0 + (j + 1)))
      rw [ih hndt j hj' (i0 + 1) _]
      have harith : i0 + 1 + j = i0 + (j + 1) := by omega
      rw [harith]

theorem jsonObj_value (opts : Options) (r : List String) (hnd : opts.Headers.Nodup)
    (j : Nat) (hj : j < opts.Headers.length) :
    lookupKey (opts.Headers.getD j "") (jsonObj opts r) = some (cellVal opts r j) := by
  have := jsonObjAux_value opts r opts.Headers hnd j hj 0 []
  simpa [jsonObj] using this

theorem runeCount_alignCell (s : String) (w : Nat) (a : Alignment) :
    runeCountInString (alignCell s w a) = max w (runeCountInString s) := by
  by_cases h : w ≤ runeCountInString s
  · simp [alignCell, h, Nat.max_eq_right h]
  · have h' : runeCountInString s < w := Nat.lt_of_not_le h
    cases a <;>
      simp [alignCell, h, runeCount_append, runeCount_srep_space] <;>
      omega

theorem alignCell_of_le (s : String) (w : Nat) (a : Alignment)
    (h : w ≤ runeCountInString s) : alignCell s w a = s := by
  simp [alignCell, h]

theorem alignedRowCells_getD (opts : Options) (widths : List Nat) (r : List String)
    (i : Nat) (hi : i < widths.length) :
    (alignedRowCells opts widths r).getD i "" =
      alignCell (applyCellOpts (r.getD i "") opts) (widths.getD i 0) (getAlign opts i) := by
  simp [alignedRowCells, List.getD, List.getElem?_map, List.getElem?_range hi]

theorem colWidths_single (opts : Options) (h : String) (hh : opts.Headers = [h])
    (hm : opts.MaxColumnWidth ≤ 0) : colWidths opts [] = [runeCountInString h] := by
  have hcap : ¬(0 < opts.MaxColumnWidth) := not_lt.mpr hm
  by_cases hz : runeCountInString h = 0
  · simp [colWidths, hh, bumpAt, hcap, hz]
  · simp [colWidths, hh, bumpAt, hcap, Nat.pos_of_ne_zero hz]

theorem renderCSV_eq (opts : Options) (rows : List (List String)) :
    renderCSV opts rows = (if opts.Headers = [] then "" else csvRow opts.Headers ++ "\n")
      ++ String.join (rows.map fun r => csvRow (r.map fun v => applyCellOpts v opts) ++ "\n") := by
  unfold renderCSV
  rw [foldl_append_eq_join (fun r => csvRow (r.map fun v => applyCellOpts v opts) ++ "\n") rows]
  congr 1
  by_cases h : opts.Headers = []
  · simp [h]
  · simp [h, List.length_pos.mpr h]

theorem renderPlain_endsNL (opts : Options) (rows : List (List String)) :
    renderPlain opts rows = "" ∨ endsNL (renderPlain opts rows) := by
  unfold renderPlain
  by_cases h : (colWidths opts rows).length = 0
  · simp [h]
  · simp only [if_neg h]
    exact Or.inr (endsNL_newline _)

theorem renderMarkdown_endsNL (opts : Options) (rows : List (List String)) :
    renderMarkdown opts rows = "" ∨ endsNL (renderMarkdown opts rows) := by
  unfold renderMarkdown
  by_cases h : (colWidths opts rows).length = 0
  · simp [h]
  · simp only [if_neg h]
    exact foldl_append_endsNL _ (fun r => endsNL_newline _) rows _
      (Or.inr (endsNL_newline _))

theorem renderCSV_endsNL (opts : Options) (rows : List (List String)) :
    renderCSV opts rows = "" ∨ endsNL (renderCSV opts rows) := by
  unfold renderCSV
  refine foldl_append_endsNL _ (fun r => endsNL_newline _) rows _ ?_
  by_cases h : 0 < opts.Headers.length
  · simp only [if_pos h]
    exact Or.inr (endsNL_newline _)
  · simp [h]

theorem renderSimple_endsNL (opts : Options) (rows : List (List String)) :
    renderSimple opts rows = "" ∨ endsNL (renderSimple opts rows) := by
  unfold renderSimple
  by_cases h : (colWidths opts rows).length = 0
  · simp [h]
  · simp only [if_neg h]
    refine foldl_append_endsNL _ (fun r => endsNL_newline _) rows _ ?_
    by_cases hh : 0 < opts.Headers.length
    · simp only [if_pos hh]
      exact Or.inr (endsNL_newline _)
    · simp [hh]

/-! ## Claims -/

/-- C1, counterexample: with headers `["Name", "Age"]` the serialized object
keys come out as `["Age", "Name"]` — `renderJSON` stores the row in a Go map
and `encoding/json` emits map keys in sorted order, not in header order. -/
theorem renderJSON_header_order_cex :
    renderJSON optsKeyOrder [["Alice", "30"]]
        = ("[\n  \x7b\n    \"Age\": \"30\",\n    \"Name\": \"Alice\"\n  \x7d\n]\n", none)
    ∧ marshalKeys (jsonObj optsKeyOrder ["Alice", "30"]) = ["Age", "Name"]
    ∧ optsKeyOrder.Headers = ["Name", "Age"]
    ∧ marshalKeys (jsonObj optsKeyOrder ["Alice", "30"]) ≠ optsKeyOrder.Headers := by
  refine ⟨?_, ?_, rfl, ?_⟩ <;> decide

/-- C1 (as amended): for JSON format with non-empty headers the rendered
output is an array of objects, one per input row, and within each object the
keys appear in byte-wise lexicographically sorted order (Go's map-key order),
not in header order. -/
theorem renderJSON_sorted_keys (opts : Options) (rows : List (List String))
    (hne : opts.Headers ≠ []) :
    (renderJSON opts rows).2 = none
    ∧ (jsonObjs opts rows).length = rows.length
    ∧ ∀ m ∈ jsonObjs opts rows, List.Sorted strLe (marshalKeys m) := by
  refine ⟨?_, by simp [jsonObjs], ?_⟩
  · have hl : opts.Headers.length ≠ 0 := by simpa [List.length_eq_zero] using hne
    simp [renderJSON, hl]
  · intro m _
    haveI := keyLE_isTotal
    haveI := keyLE_isTrans
    have hs : List.Sorted keyLE (sortEntries m) := List.sorted_insertionSort keyLE m
    exact List.Pairwise.map Prod.fst (fun a b hab => hab) hs

/-- C1, witness for `renderJSON_sorted_keys` at a concrete input. -/
theorem renderJSON_sorted_keys_witness :
    optsKeyOrder.Headers ≠ []
    ∧ ((renderJSON optsKeyOrder [["Alice", "30"]]).2 = none
        ∧ (jsonObjs optsKeyOrder [["Alice", "30"]]).length = [["Alice", "30"]].length
        ∧ ∀ m ∈ jsonObjs optsKeyOrder [["Alice", "30"]], List.Sorted strLe (marshalKeys m)) :=
  ⟨by decide, renderJSON_sorted_keys optsKeyOrder [["Alice", "30"]] (by decide)⟩

/-- C2, counterexample: with null placeholder `"N/A"` and a row shorter than
the headers, `renderJSON` stores the missing trailing cell as `""`, not as
the normalized value `"N/A"` — the source only applies `applyCellOpts` when
`i < len(r)`. -/
theorem renderJSON_missing_cell_cex :
    jsonObj optsShortRow ["x"] = [("A", "x"), ("B", "")]
    ∧ applyCellOpts "" optsShortRow = "N/A"
    ∧ renderJSON optsShortRow [["x"]]
        = ("[\n  \x7b\n    \"A\": \"x\",\n    \"B\": \"\"\n  \x7d\n]\n", none)
    ∧ ("" : String) ≠ "N/A" := by
  refine ⟨?_, ?_, ?_, ?_⟩ <;> decide

/-- C2 (as amended): for JSON format with duplicate-free headers, the value
stored under the `j`-th header is the normalization of the row's `j`-th cell
when that cell is present, and the plain empty string (no placeholder
substitution, no truncation) when the row is shorter than the headers. -/
theorem jsonObj_values (opts : Options) (r : List String) (hnd : opts.Headers.Nodup)
    (j : Nat) (hj : j < opts.Headers.length) :
    lookupKey (opts.Headers.getD j "") (jsonObj opts r)
      = some (if j < r.length then applyCellOpts (r.getD j "") opts else "") :=
  jsonObj_value opts r hnd j hj

/-- C2, witness for `jsonObj_values` at a concrete input. -/
theorem jsonObj_values_witness :
    optsShortRow.Headers.Nodup
    ∧ 1 < optsShortRow.Headers.length
    ∧ lookupKey (optsShortRow.Headers.getD 1 "") (jsonObj optsShortRow ["x"])
        = some (if 1 < (["x"] : List String).length
            then applyCellOpts ((["x"] : List String).getD 1 "") optsShortRow else "") :=
  ⟨by decide, by decide, jsonObj_values optsShortRow ["x"] (by decide) 1 (by decide)⟩

/-- C3, counterexample: with `maxColumnWidth = 4`, the CSV header cell
`"Hello"` is emitted raw while the identical data cell is truncated to
`"H..."` — `renderCSV` never applies `applyCellOpts` to headers. -/
theorem csv_header_not_normalized_cex :
    renderCSV optsRawHeader [["Hello"]] = "Hello\nH...\n"
    ∧ applyCellOpts "Hello" optsRawHeader = "H..."
    ∧ ("Hello" : String) ≠ "H..." := by
  refine ⟨?_, ?_, ?_⟩ <;> decide

/-- C3 (as amended): CSV data cells are normalized but CSV header cells are
emitted raw (the header line is exactly `csvRow` of the configured headers,
whatever the placeholder or truncation options), and column-width computation
measures a header by its raw code-point length, not its normalized length. -/
theorem csv_and_widths_raw_headers :
    (∀ (opts : Options) (rows : List (List String)), opts.Headers ≠ [] →
        renderCSV opts rows = csvRow opts.Headers ++ "\n"
          ++ String.join (rows.map fun r => csvRow (r.map fun v => applyCellOpts v opts) ++ "\n"))
    ∧ (∀ (opts : Options) (h : String), opts.Headers = [h] → opts.MaxColumnWidth ≤ 0 →
        colWidths opts [] = [runeCountInString h]) := by
  constructor
  · intro opts rows hne
    rw [renderCSV_eq, if_neg hne]
  · exact colWidths_single

/-- C3, witness for `csv_and_widths_raw_headers` at concrete inputs. -/
theorem csv_and_widths_raw_headers_witness :
    optsRawHeader.Headers ≠ []
    ∧ renderCSV optsRawHeader [["Hello"]]
        = csvRow optsRawHeader.Headers ++ "\n"
          ++ String.join ([["Hello"]].map fun r =>
               csvRow (r.map fun v => applyCellOpts v optsRawHeader) ++ "\n")
    ∧ colWidths ({ Headers := ["A"], NullPlaceholder := "N/A" } : Options) []
        = [runeCountInString "A"] :=
  ⟨by decide,
   csv_and_widths_raw_headers.1 optsRawHeader [["Hello"]] (by decide),
   csv_and_widths_raw_headers.2 ({ Headers := ["A"], NullPlaceholder := "N/A" } : Options) "A"
     rfl (by decide)⟩

/-- C4: truncation behavior of cell normalization. After placeholder
substitution, with limit `n = maxColumnWidth`: if `n > 3` and the substituted
value is longer than `n`, the result has exactly `n` code points and ends in
`"..."`; if `0 < n ≤ 3` and the value is longer than `n`, the result is the
first `n` code points with no ellipsis; if `n = 0` or the value fits, the
substituted value is returned unchanged. -/
theorem applyCellOpts_truncation (v : String) (opts : Options) :
    (3 < opts.MaxColumnWidth →
        opts.MaxColumnWidth < (runeCountInString (substNull v opts) : Int) →
        runeCountInString (applyCellOpts v opts) = opts.MaxColumnWidth.toNat
          ∧ ∃ p : String, applyCellOpts v opts = p ++ "...")
    ∧ (0 < opts.MaxColumnWidth → opts.MaxColumnWidth ≤ 3 →
        opts.MaxColumnWidth < (runeCountInString (substNull v opts) : Int) →
        runeCountInString (applyCellOpts v opts) = opts.MaxColumnWidth.toNat
          ∧ applyCellOpts v opts
              = ((substNull v opts).toList.take opts.MaxColumnWidth.toNat).asString)
    ∧ ((opts.MaxColumnWidth = 0 ∨ (runeCountInString (substNull v opts) : Int) ≤ opts.MaxColumnWidth) →
        applyCellOpts v opts = substNull v opts) := by
  have he : runeCountInString (substNull v opts) = (substNull v opts).toList.length := rfl
  refine ⟨?_, ?_, ?_⟩
  · intro h3 hlen
    have h0 : (0 : Int) < opts.MaxColumnWidth := by omega
    unfold applyCellOpts truncCell
    rw [if_pos ⟨h0, hlen⟩, if_pos h3]
    constructor
    · rw [runeCount_append, runeCount_asString, List.length_take]
      have hdots : runeCountInString "..." = 3 := rfl
      rw [hdots, ← he]
      omega
    · exact ⟨_, rfl⟩
  · intro h0 hle3 hlen
    unfold applyCellOpts truncCell
    rw [if_pos ⟨h0, hlen⟩, if_neg (not_lt.mpr hle3)]
    refine ⟨?_, rfl⟩
    rw [runeCount_asString, List.length_take, ← he]
    omega
  · intro hdisj
    unfold applyCellOpts truncCell
    have hcond : ¬(0 < opts.MaxColumnWidth
        ∧ opts.MaxColumnWidth < (runeCountInString (substNull v opts) : Int)) := by
      rintro ⟨ha, hb⟩
      rcases hdisj with h | h <;> omega
    rw [if_neg hcond]

/-- C4, witness for `applyCellOpts_truncation` at concrete inputs covering
all three cases. -/
theorem applyCellOpts_truncation_witness :
    (runeCountInString (applyCellOpts "abcdefgh" ({ MaxColumnWidth := 5 } : Options))
        = Int.toNat 5
      ∧ ∃ p : String, applyCellOpts "abcdefgh" ({ MaxColumnWidth := 5 } : Options) = p ++ "...")
    ∧ (runeCountInString (applyCellOpts "abcdefgh" ({ MaxColumnWidth := 2 } : Options))
        = Int.toNat 2
      ∧ applyCellOpts "abcdefgh" ({ MaxColumnWidth := 2 } : Options)
          = ((substNull "abcdefgh" ({ MaxColumnWidth := 2 } : Options)).toList.take
              (Int.toNat 2)).asString)
    ∧ applyCellOpts "abc" ({ MaxColumnWidth := 0 } : Options)
        = substNull "abc" ({ MaxColumnWidth := 0 } : Options) :=
  ⟨(applyCellOpts_truncation "abcdefgh" ({ MaxColumnWidth := 5 } : Options)).1
      (by decide) (by decide),
   (applyCellOpts_truncation "abcdefgh" ({ MaxColumnWidth := 2 } : Options)).2.1
      (by decide) (by decide) (by decide),
   (applyCellOpts_truncation "abc" ({ MaxColumnWidth := 0 } : Options)).2.2 (Or.inl rfl)⟩

/-- C5: `AddRow` fails with `ErrColumnMismatch` exactly when strict mode is
on, headers are non-empty, and the cell count differs from the header count;
on failure the table (hence its row sequence and row count) is unchanged, and
on success the new row is appended last, the row count grows by one, and the
options are untouched. -/
theorem AddRow_spec (t : Table) (cols : List String) :
    ((AddRow t cols).2 = some TWError.ColumnMismatch ↔
        t.opts.StrictColumnCount = true ∧ t.opts.Headers ≠ []
          ∧ cols.length ≠ t.opts.Headers.length)
    ∧ ((AddRow t cols).2 ≠ none → (AddRow t cols).1 = t)
    ∧ ((AddRow t cols).2 = none →
        (AddRow t cols).1.rows = t.rows ++ [cols]
          ∧ RowCount (AddRow t cols).1 = RowCount t + 1
          ∧ (AddRow t cols).1.opts = t.opts) := by
  by_cases hc : t.opts.StrictColumnCount = true ∧ 0 < t.opts.Headers.length
      ∧ cols.length ≠ t.opts.Headers.length
  · unfold AddRow
    rw [if_pos hc]
    refine ⟨⟨fun _ => ⟨hc.1, List.length_pos.mp hc.2.1, hc.2.2⟩, fun _ => rfl⟩, ?_, ?_⟩
    · intro _; rfl
    · intro h; exact absurd h (by simp)
  · unfold AddRow
    rw [if_neg hc]
    refine ⟨⟨fun h => absurd h (by simp), ?_⟩, ?_, ?_⟩
    · rintro ⟨a, b, c⟩
      exact absurd ⟨a, List.length_pos.mpr b, c⟩ hc
    · intro h; exact absurd rfl h
    · intro _
      exact ⟨rfl, by simp [RowCount], rfl⟩

/-- C5, witness for `AddRow_spec`: a strict two-header table rejects a
one-cell row unchanged and appends a two-cell row. -/
theorem AddRow_spec_witness :
    (AddRow strictTable ["x"]).2 = some TWError.ColumnMismatch
    ∧ (AddRow strictTable ["x"]).1 = strictTable
    ∧ (AddRow strictTable ["x", "y"]).1.rows = strictTable.rows ++ [["x", "y"]]
    ∧ RowCount (AddRow strictTable ["x", "y"]).1 = RowCount strictTable + 1 :=
  ⟨(AddRow_spec strictTable ["x"]).1.mpr (by decide),
   (AddRow_spec strictTable ["x"]).2.1 (by decide),
   ((AddRow_spec strictTable ["x", "y"]).2.2 (by decide)).1,
   ((AddRow_spec strictTable ["x", "y"]).2.2 (by decide)).2.1⟩

/-- C6, counterexample: with null placeholder `"N/A"` and a row missing its
only cell, the computed column width is 1 but the rendered data cell is
`"N/A"` of width 3 — missing cells are normalized after widths were computed,
so their placeholder can exceed the column width and receives no padding. -/
theorem plain_cell_wider_than_column_cex :
    colWidths optsWidePlaceholder [[]] = [1]
    ∧ (alignedRowCells optsWidePlaceholder (colWidths optsWidePlaceholder [[]]) []).getD 0 ""
        = "N/A"
    ∧ runeCountInString "N/A" = 3
    ∧ renderPlain optsWidePlaceholder [[]]
        = "┌───┐\n│ A │\n├───┤\n│ N/A │\n└───┘\n"
    ∧ (3 : Nat) ≠ 1 := by
  refine ⟨?_, ?_, ?_, ?_, ?_⟩ <;> decide

/-- C6 (as amended): every rendered data cell of the Plain/Markdown/Simple
row loops has code-point width `max(column width, normalized cell width)` —
equal to the column's computed width whenever the normalized cell fits;
Center alignment left-pads `floor(deficit / 2)` spaces and right-pads the
rest (odd deficits put the extra space on the right), and no padding is added
when the cell's length already meets or exceeds the target width. -/
theorem alignCell_padding :
    (∀ (s : String) (w : Nat) (a : Alignment),
        runeCountInString (alignCell s w a) = max w (runeCountInString s))
    ∧ (∀ (s : String) (w : Nat), runeCountInString s < w →
        alignCell s w Alignment.AlignCenter
          = srep " " ((w - runeCountInString s) / 2) ++ s
            ++ srep " " ((w - runeCountInString s) - (w - runeCountInString s) / 2))
    ∧ (∀ (s : String) (w : Nat) (a : Alignment), w ≤ runeCountInString s → alignCell s w a = s)
    ∧ (∀ (opts : Options) (widths : List Nat) (r : List String) (i : Nat), i < widths.length →
        runeCountInString ((alignedRowCells opts widths r).getD i "")
          = max (widths.getD i 0) (runeCountInString (applyCellOpts (r.getD i "") opts))) := by
  refine ⟨runeCount_alignCell, ?_, alignCell_of_le, ?_⟩
  · intro s w h
    simp [alignCell, not_le.mpr h]
  · intro opts widths r i hi
    rw [alignedRowCells_getD opts widths r i hi, runeCount_alignCell]

/-- C6, witness for `alignCell_padding` at concrete inputs. -/
theorem alignCell_padding_witness :
    runeCountInString (alignCell "ab" 5 Alignment.AlignCenter) = max 5 (runeCountInString "ab")
    ∧ (runeCountInString "ab" < 5
        ∧ alignCell "ab" 5 Alignment.AlignCenter
            = srep " " ((5 - runeCountInString "ab") / 2) ++ "ab"
              ++ srep " " ((5 - runeCountInString "ab") - (5 - runeCountInString "ab") / 2))
    ∧ (3 ≤ runeCountInString "xyz" ∧ alignCell "xyz" 3 Alignment.AlignRight = "xyz")
    ∧ (0 < ([4] : List Nat).length
        ∧ runeCountInString ((alignedRowCells ({} : Options) [4] ["hi"]).getD 0 "")
            = max (([4] : List Nat).getD 0 0)
                (runeCountInString (applyCellOpts ((["hi"] : List String).getD 0 "") ({} : Options)))) :=
  ⟨alignCell_padding.1 "ab" 5 Alignment.AlignCenter,
   ⟨by decide, alignCell_padding.2.1 "ab" 5 (by decide)⟩,
   ⟨by decide, alignCell_padding.2.2.1 "xyz" 3 Alignment.AlignRight (by decide)⟩,
   ⟨by decide, alignCell_padding.2.2.2 ({} : Options) [4] ["hi"] 0 (by decide)⟩⟩

/-- C7: for every configuration whose format is Plain, Markdown, CSV or
Simple, `render` returns a nil error on every row set — only the JSON format
can return an error. -/
theorem render_nonJSON_no_error (opts : Options) (rows : List (List String))
    (h : opts.Format ≠ Format.FormatJSON) : (render opts rows).2 = none := by
  cases hf : opts.Format <;> first
    | exact absurd hf h
    | simp [render, hf]

/-- C7, witness for `render_nonJSON_no_error` at a concrete input. -/
theorem render_nonJSON_no_error_witness :
    ({ Format := Format.FormatSimple } : Options).Format ≠ Format.FormatJSON
    ∧ (render ({ Format := Format.FormatSimple } : Options) [["a"], []]).2 = none :=
  ⟨by decide, render_nonJSON_no_error _ [["a"], []] (by decide)⟩

/-- C8: `render` returns `ErrMissingHeaders` exactly when the format is JSON
and the configured headers are empty; in that case the returned string is
empty (the check precedes any row processing, so the result does not depend
on the rows), and no other format ever returns `ErrMissingHeaders`. -/
theorem render_missingHeaders (opts : Options) (rows : List (List String)) :
    ((render opts rows).2 = some TWError.MissingHeaders ↔
        opts.Format = Format.FormatJSON ∧ opts.Headers = [])
    ∧ (opts.Format = Format.FormatJSON → opts.Headers = [] → (render opts rows).1 = "") := by
  cases hf : opts.Format
  case FormatJSON =>
    by_cases hh : opts.Headers = []
    · simp [render, hf, renderJSON, hh]
    · have hl : opts.Headers.length ≠ 0 := by simpa [List.length_eq_zero] using hh
      simp [render, hf, renderJSON, hl, hh]
  all_goals simp [render, hf]

/-- C8, witness for `render_missingHeaders` at a concrete input. -/
theorem render_missingHeaders_witness :
    (render ({ Format := Format.FormatJSON } : Options) [["x"]]).2
        = some TWError.MissingHeaders
    ∧ (render ({ Format := Format.FormatJSON } : Options) [["x"]]).1 = "" :=
  ⟨(render_missingHeaders ({ Format := Format.FormatJSON } : Options) [["x"]]).1.mpr ⟨rfl, rfl⟩,
   (render_missingHeaders ({ Format := Format.FormatJSON } : Options) [["x"]]).2 rfl rfl⟩

/-- C9: CSV format. The concrete scenario from the specification renders
exactly as `"ID,Status\n1,active\n2,pending\n"`; in general the output is the
header line (present exactly when headers are non-empty) followed by one
comma-joined line of normalized cells per row, every line newline-terminated;
and a cell containing a comma, double quote, or newline is wrapped in double
quotes with internal double quotes doubled. -/
theorem renderCSV_spec :
    render optsCsvScenario [["1", "active"], ["2", "pending"]]
        = ("ID,Status\n1,active\n2,pending\n", none)
    ∧ (∀ (opts : Options) (rows : List (List String)),
        renderCSV opts rows = (if opts.Headers = [] then "" else csvRow opts.Headers ++ "\n")
          ++ String.join (rows.map fun r => csvRow (r.map fun v => applyCellOpts v opts) ++ "\n"))
    ∧ csvEscape "value with \"quotes\" and, comma" = "\"value with \"\"quotes\"\" and, comma\""
    ∧ csvEscape "plain" = "plain" := by
  refine ⟨by decide, renderCSV_eq, by decide, by decide⟩

/-- C10: whenever `render` succeeds with a non-empty string, the string's
last character is a newline — across all five formats. -/
theorem render_trailing_newline (opts : Options) (rows : List (List String))
    (hok : (render opts rows).2 = none) (hne : (render opts rows).1 ≠ "") :
    endsNL (render opts rows).1 := by
  cases hf : opts.Format
  case FormatPlain =>
    simp only [render, hf] at hne ⊢
    rcases renderPlain_endsNL opts rows with h | h
    · exact absurd h hne
    · exact h
  case FormatMarkdown =>
    simp only [render, hf] at hne ⊢
    rcases renderMarkdown_endsNL opts rows with h | h
    · exact absurd h hne
    · exact h
  case FormatCSV =>
    simp only [render, hf] at hne ⊢
    rcases renderCSV_endsNL opts rows with h | h
    · exact absurd h hne
    · exact h
  case FormatSimple =>
    simp only [render, hf] at hne ⊢
    rcases renderSimple_endsNL opts rows with h | h
    · exact absurd h hne
    · exact h
  case FormatJSON =>
    simp only [render, hf] at hok hne ⊢
    by_cases hh : opts.Headers.length = 0
    · simp [renderJSON, hh] at hok
    · simp only [renderJSON, if_neg hh]
      exact endsNL_newline _

/-- C10, witness for `render_trailing_newline` at a concrete input. -/
theorem render_trailing_newline_witness :
    (render ({ Headers := ["X"] } : Options) []).2 = none
    ∧ (render ({ Headers := ["X"] } : Options) []).1 ≠ ""
    ∧ endsNL (render ({ Headers := ["X"] } : Options) []).1 :=
  ⟨by decide, by decide,
   render_trailing_newline ({ Headers := ["X"] } : Options) [] (by decide) (by decide)⟩

end Tablewriter
